import Mathlib

/-!
# gitrob: the repository-analysis pipeline

A shallow embedding of `core/git.go` and of the worker body of
`AnalyzeRepositories` / `GatherRepositories` in `main.go`.

* Go's `(value, error)` results are `Except String _` (the string is `err.Error()`).
* The go-git objects the code consumes (`git.Repository`, `object.Commit`,
  `object.Tree`, `object.Change`) are records holding what their methods answer.
* A worker iteration either finishes (the worker takes the next queue item) or
  panics (an unrecovered panic in a goroutine ends the whole process).
* The file system is the list of directories that exist.
-/

set_option autoImplicit false

namespace Gitrob

/-! ## go-git objects consumed by `core/git.go` -/

namespace merkletrie

/-- The type `merkletrie.Action`: an integer enumeration whose named values are
`Insert`, `Delete` and `Modify`; `Invalid` stands for every other integer. -/
inductive Action where
  | Insert
  | Delete
  | Modify
  | Invalid
  deriving DecidableEq, Repr

end merkletrie

namespace core

/-- The constant `EmptyTreeCommitId` of `core/git.go`. -/
def EmptyTreeCommitId : String := "4b825dc642cb6eb9a060e54bf8d69288fbee4904"

/-- The type `object.ChangeEntry`: only the `Name` field is read. -/
structure ChangeEntry where
  Name : String
  deriving DecidableEq, Repr

/-- The type `object.Change`: the pre-image `From`, the post-image `To`, and what
`change.Action()` answers (an action, or an error when the change cannot be decoded). -/
structure Change where
  From : ChangeEntry
  To : ChangeEntry
  Action : Except String merkletrie.Action

/-- The type `object.File` as read through `GitFile`: its name and what
`fo.Contents()` answers. -/
structure GitFile where
  Name : String
  Contents : Except String String

/-- The method `GitFile.Content`: the contents, or the empty string when they cannot be read. -/
def GitFile.Content (f : GitFile) : String :=
  match f.Contents with
  | .error _ => ""
  | .ok content => content

/-- The type `object.Tree`: the files `tree.Files()` delivers before its iterator
returns an error (end of iteration included). -/
structure Tree where
  Files : List GitFile

/-- The type `object.Commit`: `Tree` is what `commit.Tree()` answers. -/
structure Commit where
  Hash : String
  Message : String
  Author : String
  ParentHashes : List String
  Tree : Except String Tree

/-- The method `commit.NumParents()`. -/
def Commit.NumParents (c : Commit) : Nat := c.ParentHashes.length

/-- The type `git.Repository`: what `Head()` answers (the hash of the reference),
what `CommitObject(h)` answers, and the commits `Log` started at `h` delivers to
`ForEach` (or the error of `Log`). -/
structure Repository where
  Head : Except String String
  CommitObject : String → Except String Commit
  Log : String → Except String (List Commit)

/-- The type `FileList`: the entries of the Go map `Files`. -/
structure FileList where
  Files : List (String × GitFile)

/-- Assignment `m[k] = v` on a Go map kept as an association list. -/
def mapAssign (m : List (String × GitFile)) (k : String) (v : GitFile) :
    List (String × GitFile) :=
  match m with
  | [] => [(k, v)]
  | (k0, v0) :: rest => if k0 = k then (k, v) :: rest else (k0, v0) :: mapAssign rest k v

/-- The function `FetchFiles` of `core/git.go`. -/
def FetchFiles (gc : Repository) : Except String FileList :=
  match gc.Head with
  | .error err => .error err
  | .ok ref =>
    match gc.CommitObject ref with
    | .error err => .error err
    | .ok commit =>
      match commit.Tree with
      | .error err => .error err
      | .ok tree =>
        .ok ⟨tree.Files.foldl (fun repoFiles fo => mapAssign repoFiles fo.Name fo) []⟩

/-- The function `GetRepositoryHistory` of `core/git.go`; the value `ForEach`
returns is dropped by the source. -/
def GetRepositoryHistory (repository : Repository) : Except String (List Commit) :=
  match repository.Head with
  | .error err => .error err
  | .ok ref =>
    match repository.Log ref with
    | .error err => .error err
    | .ok cIter => .ok cIter

/-- The function `GetParentCommit` of `core/git.go`. With no parents it asks the
repository for the commit object stored under `EmptyTreeCommitId`; otherwise
`commit.Parents().Next()` looks the first parent hash up in the object store. -/
def GetParentCommit (commit : Commit) (repo : Repository) : Except String Commit :=
  if commit.NumParents = 0 then
    match repo.CommitObject EmptyTreeCommitId with
    | .error err => .error err
    | .ok parentCommit => .ok parentCommit
  else
    match commit.ParentHashes with
    | [] => .error "EOF"
    | h :: _ =>
      match repo.CommitObject h with
      | .error err => .error err
      | .ok parentCommit => .ok parentCommit

/-- The function `GetChanges` of `core/git.go`; `DiffTree` is go-git's
`object.DiffTree`. -/
def GetChanges (DiffTree : Tree → Tree → Except String (List Change))
    (commit : Commit) (repo : Repository) : Except String (List Change) :=
  match GetParentCommit commit repo with
  | .error err => .error err
  | .ok parentCommit =>
    match commit.Tree with
    | .error err => .error err
    | .ok commitTree =>
      match parentCommit.Tree with
      | .error err => .error err
      | .ok parentCommitTree =>
        match DiffTree parentCommitTree commitTree with
        | .error err => .error err
        | .ok changes => .ok changes

/-- The function `GetChangeAction` of `core/git.go`. -/
def GetChangeAction (change : Change) : String :=
  match change.Action with
  | .error _ => "Unknown"
  | .ok action =>
    match action with
    | .Insert => "Insert"
    | .Modify => "Modify"
    | .Delete => "Delete"
    | _ => "Unknown"

/-- The function `GetChangePath` of `core/git.go`. -/
def GetChangePath (change : Change) : String :=
  match change.Action with
  | .error _ => change.To.Name
  | .ok action =>
    if action = merkletrie.Action.Delete then change.From.Name else change.To.Name

end core

/-! ## Session state (`core.Session`, `core.Stats`, `core.Finding`) -/

/-- The type `core.Finding`: the nine fields `main.go` fills in. The fields
`finding.Initialize()` derives from them (identifier and URLs) are left out. -/
structure Finding where
  FilePath : String
  Action : String
  Description : String
  Comment : String
  RepositoryOwner : String
  RepositoryName : String
  CommitHash : String
  CommitMessage : String
  CommitAuthor : String
  deriving DecidableEq, Repr

/-- The type `core.Stats`: its counters. The progress percentage that
`UpdateProgress` recomputes is a floating-point value and is left out. -/
structure Stats where
  Targets : Nat
  Repositories : Nat
  Commits : Nat
  Files : Nat
  Findings : Nat
  deriving DecidableEq, Repr

/-- The type `core.Session`: the finding list and the counters. -/
structure Session where
  Findings : List Finding
  Stats : Stats
  deriving DecidableEq, Repr

/-- The type `core.GithubRepository`. -/
structure GithubRepository where
  Owner : String
  Name : String
  FullName : String
  CloneURL : String
  DefaultBranch : String
  deriving DecidableEq, Repr

/-- The type `core.MatchFile`. -/
structure MatchFile where
  Path : String
  deriving DecidableEq, Repr

/-- Modelled from the spec: `core.NewMatchFile`, whose declaration is not part of
`main.go` or `core/git.go`; the spec describes a match file as its path plus a skip
decision. -/
def NewMatchFile (path : String) : MatchFile := ⟨path⟩

/-- The interface `core.Signature`: a match predicate, a description, a comment. -/
structure Signature where
  Match : MatchFile → Bool
  Description : String
  Comment : String

/-- What the worker uses and neither `main.go` nor `core/git.go` declares: the
signature table `core.Signatures`, the skip rule `IsSkippable`, go-git's
`object.DiffTree`, `strings.TrimSpace`, the options `Threads` and `CommitDepth`, and
the number of times `sess.AddFinding` itself increments `Stats.Findings`
(`findingBumps`). -/
structure Env where
  Signatures : List Signature
  IsSkippable : MatchFile → Bool
  DiffTree : core.Tree → core.Tree → Except String (List core.Change)
  TrimSpace : String → String
  findingBumps : Nat
  Threads : Int
  CommitDepth : Int

/-- What the machine answers to a worker: `ioutil.TempDir("", "gitrob")` given the
directories that exist; `git.PlainClone` given the directory, the URL, the reference
name and the depth; and the order in which a `range` visits the entries of a map
(Go leaves it unspecified; it is some arrangement of the entries). -/
structure Host where
  TempDir : List String → Except String String
  PlainClone : String → String → String → Int → Except String core.Repository
  rangeOrder : List (String × core.GitFile) → List (String × core.GitFile)

/-- The entries of `files.Files` as the `range` of the worker visits them. -/
def Host.visit (host : Host) (files : core.FileList) : core.FileList :=
  ⟨host.rangeOrder files.Files⟩

/-- Modelled from the spec: `Session.AddFinding`, whose declaration is not part of
`main.go` or `core/git.go`; the spec says it appends the finding. How many increments
of `Stats.Findings` it performs itself is the parameter `bumps` (the spec says one,
the call site in the commit loop of `main.go` increments separately). -/
def Session.AddFinding (bumps : Nat) (sess : Session) (finding : Finding) : Session :=
  { sess with
    Findings := sess.Findings ++ [finding]
    Stats := { sess.Stats with Findings := sess.Stats.Findings + bumps } }

/-- Modelled from the spec: `Stats.IncrementFindings`, whose declaration is not part
of `main.go` or `core/git.go`; the spec says it is an atomic increment. -/
def Session.IncrementFindings (sess : Session) : Session :=
  { sess with Stats := { sess.Stats with Findings := sess.Stats.Findings + 1 } }

/-- Modelled from the spec: `Stats.IncrementFiles`, an atomic increment. -/
def Session.IncrementFiles (sess : Session) : Session :=
  { sess with Stats := { sess.Stats with Files := sess.Stats.Files + 1 } }

/-- Modelled from the spec: `Stats.IncrementCommits`, an atomic increment. -/
def Session.IncrementCommits (sess : Session) : Session :=
  { sess with Stats := { sess.Stats with Commits := sess.Stats.Commits + 1 } }

/-- Modelled from the spec: `Stats.IncrementRepositories`, an atomic increment. -/
def Session.IncrementRepositories (sess : Session) : Session :=
  { sess with Stats := { sess.Stats with Repositories := sess.Stats.Repositories + 1 } }

/-! ## `CloneRepository` and the file system -/

/-- The function `CloneRepository` of `core/git.go`, together with its effect on the
existing directories: `ioutil.TempDir` creates `dir`, `git.PlainClone` clones into it
and leaves the directory itself in place. The Go triple `(repository, dir, err)` is
`.ok (repository, dir)` when `err` is nil and `.error (dir, err)` otherwise. -/
def core.CloneRepository (host : Host) (dirs : List String) (url branch : String)
    (depth : Int) : Except (String × String) (core.Repository × String) × List String :=
  match host.TempDir dirs with
  | .error err => (.error ("", err), dirs)
  | .ok dir =>
    match host.PlainClone dir url ("refs/heads/" ++ branch) depth with
    | .error err => (.error (dir, err), dir :: dirs)
    | .ok repository => (.ok (repository, dir), dir :: dirs)

/-- The call `os.RemoveAll(path)` on the set of existing directories. -/
def RemoveAll (path : String) (dirs : List String) : List String :=
  dirs.filter (fun d => d ≠ path)

/-! ## The worker body of `AnalyzeRepositories` -/

/-- Number of non-overlapping occurrences of the literal `pat`, scanning left to
right; `skip` characters of a match just counted are still to be passed over. -/
def countLiteral (pat : List Char) : Nat → List Char → Nat
  | _, [] => 0
  | skip + 1, _ :: cs => countLiteral pat skip cs
  | 0, c :: cs =>
    if pat.isPrefixOf (c :: cs) then 1 + countLiteral pat (pat.length - 1) cs
    else countLiteral pat 0 cs

/-- The expression `len(mwsRegex.FindAllString(content, -1))` for
`mwsRegex = regexp.MustCompile("password")`. -/
def mwsRegexCount (content : String) : Nat :=
  countLiteral "password".toList 0 content.toList

namespace AnalyzeRepositories

/-- The loop over `files.Files` (lines 170-189), given the entries in the order they
are visited: a finding with placeholder texts for every file at HEAD whose content
matches `mwsRegex`. -/
def headPass (env : Env) (repo : GithubRepository) (files : core.FileList)
    (sess : Session) : Session :=
  files.Files.foldl
    (fun sess entry =>
      let count := mwsRegexCount entry.2.Content
      if count > 0 then
        sess.AddFinding env.findingBumps
          { FilePath := entry.1
            Action := "Unknown"
            Description := "Test desc "
            Comment := "Test comment"
            RepositoryOwner := repo.Owner
            RepositoryName := repo.Name
            CommitHash := toString count
            CommitMessage := "Test commit message"
            CommitAuthor := "Test author" }
      else sess)
    sess

/-- The finding built at lines 231-241 for a matching signature. -/
def newFinding (env : Env) (repo : GithubRepository) (commit : core.Commit)
    (changeAction path : String) (signature : Signature) : Finding :=
  { FilePath := path
    Action := changeAction
    Description := signature.Description
    Comment := signature.Comment
    RepositoryOwner := repo.Owner
    RepositoryName := repo.Name
    CommitHash := commit.Hash
    CommitMessage := env.TrimSpace commit.Message
    CommitAuthor := commit.Author }

/-- The loop over `core.Signatures` (lines 228-259), with its `break`. -/
def signatureLoop (env : Env) (repo : GithubRepository) (commit : core.Commit)
    (changeAction path : String) (matchFile : MatchFile) :
    List Signature → Session → Session
  | [], sess => sess
  | signature :: rest, sess =>
    if signature.Match matchFile then
      (sess.AddFinding env.findingBumps
        (newFinding env repo commit changeAction path signature)).IncrementFindings
    else signatureLoop env repo commit changeAction path matchFile rest sess

/-- The body of the loop over `changes` (lines 216-261), with its `continue`. -/
def changeBody (env : Env) (repo : GithubRepository) (commit : core.Commit)
    (sess : Session) (change : core.Change) : Session :=
  let changeAction := core.GetChangeAction change
  let path := core.GetChangePath change
  let matchFile := NewMatchFile path
  if env.IsSkippable matchFile then sess
  else
    (signatureLoop env repo commit changeAction path matchFile env.Signatures
      sess).IncrementFiles

/-- The value of `changes` after `changes, _ := core.GetChanges(commit, clone)`:
nil when the diff fails. -/
def changesOf (env : Env) (clone : core.Repository) (commit : core.Commit) :
    List core.Change :=
  match core.GetChanges env.DiffTree commit clone with
  | .error _ => []
  | .ok changes => changes

/-- The body of the loop over `history` (lines 212-264). -/
def commitBody (env : Env) (repo : GithubRepository) (clone : core.Repository)
    (sess : Session) (commit : core.Commit) : Session :=
  ((changesOf env clone commit).foldl (changeBody env repo commit) sess).IncrementCommits

end AnalyzeRepositories

/-! ## What the loops record, stated as lists -/

namespace AnalyzeRepositories

/-- The first signature, in declared order, whose predicate matches the file. -/
def firstMatch (env : Env) (matchFile : MatchFile) : Option Signature :=
  env.Signatures.find? (fun s => s.Match matchFile)

/-- The finding one change gives rise to: none when its path is skippable or no
signature matches, otherwise the finding of the first matching signature. -/
def changeFinding (env : Env) (repo : GithubRepository) (commit : core.Commit)
    (change : core.Change) : Option Finding :=
  if env.IsSkippable (NewMatchFile (core.GetChangePath change)) then none
  else
    (firstMatch env (NewMatchFile (core.GetChangePath change))).map
      (newFinding env repo commit (core.GetChangeAction change) (core.GetChangePath change))

/-- The findings of one commit, in change-list order. -/
def commitFindings (env : Env) (repo : GithubRepository) (clone : core.Repository)
    (commit : core.Commit) : List Finding :=
  (changesOf env clone commit).filterMap (changeFinding env repo commit)

/-- The findings of a history, in commit-list order. -/
def historyFindings (env : Env) (repo : GithubRepository) (clone : core.Repository) :
    List core.Commit → List Finding
  | [] => []
  | commit :: rest => commitFindings env repo clone commit ++ historyFindings env repo clone rest

/-- The placeholder finding of the pass over the files at HEAD, for a file whose
content matches `mwsRegex`. -/
def headFinding (repo : GithubRepository) (entry : String × core.GitFile) : Option Finding :=
  if mwsRegexCount entry.2.Content > 0 then
    some
      { FilePath := entry.1
        Action := "Unknown"
        Description := "Test desc "
        Comment := "Test comment"
        RepositoryOwner := repo.Owner
        RepositoryName := repo.Name
        CommitHash := toString (mwsRegexCount entry.2.Content)
        CommitMessage := "Test commit message"
        CommitAuthor := "Test author" }
  else none

/-- The findings of the pass over the files at HEAD, in the order the map is visited. -/
def headFindings (repo : GithubRepository) (files : core.FileList) : List Finding :=
  files.Files.filterMap (headFinding repo)

/-- The number of changes of a list whose path is not skippable. -/
def inspected (env : Env) (changes : List core.Change) : Nat :=
  changes.countP (fun change => !env.IsSkippable (NewMatchFile (core.GetChangePath change)))

end AnalyzeRepositories

/-- The state a worker acts on: the session and the existing directories. -/
structure World where
  sess : Session
  dirs : List String
  deriving DecidableEq, Repr

/-- How one iteration of a worker's loop ends: the worker goes on to the next
queue item, or a run-time panic ends the process. -/
inductive Outcome where
  | next (w : World)
  | panic (w : World)
  deriving DecidableEq, Repr

/-- The state in which an iteration ended. -/
def Outcome.world : Outcome → World
  | .next w => w
  | .panic w => w

/-- One iteration of the worker loop of `AnalyzeRepositories` (lines 154-269) for
the repository `repo` taken from the channel. When `FetchFiles` fails, `files` is
nil and `files.Files` dereferences it. -/
def AnalyzeRepositories.worker (env : Env) (host : Host) (w : World)
    (repo : GithubRepository) : Outcome :=
  match core.CloneRepository host w.dirs repo.CloneURL repo.DefaultBranch env.CommitDepth with
  | (.error _, dirs) => .next ⟨w.sess.IncrementRepositories, dirs⟩
  | (.ok (clone, path), dirs) =>
    match core.FetchFiles clone with
    | .error _ => .panic ⟨w.sess, dirs⟩
    | .ok files =>
      let sess := AnalyzeRepositories.headPass env repo (host.visit files) w.sess
      match core.GetRepositoryHistory clone with
      | .error _ => .next ⟨sess.IncrementRepositories, RemoveAll path dirs⟩
      | .ok history =>
        let sess := history.foldl (AnalyzeRepositories.commitBody env repo clone) sess
        .next ⟨sess.IncrementRepositories, RemoveAll path dirs⟩

/-! ## Worker counts of `main.go` -/

/-- The worker count `threadNum` computed at the top of `AnalyzeRepositories`,
from `len(sess.Repositories)` and `*sess.Options.Threads`. -/
def AnalyzeRepositories.threadNum (lenRepositories : Nat) (Threads : Int) : Int :=
  if lenRepositories ≤ 1 then 1
  else if (lenRepositories : Int) ≤ Threads then (lenRepositories : Int) - 1
  else Threads

/-- The worker count `threadNum` computed at the top of `GatherRepositories`,
from `len(sess.Targets)` and `*sess.Options.Threads`. -/
def GatherRepositories.threadNum (lenTargets : Nat) (Threads : Int) : Int :=
  if lenTargets = 1 then 1
  else if (lenTargets : Int) ≤ Threads then (lenTargets : Int) - 1
  else Threads

/-! ## A concrete repository: `acme/app` -/

namespace Sample

/-- A tree diff for the sample: files only in the new tree are inserted, files in
both with different content are modified, files only in the old tree are deleted. -/
def diffTree (old new : core.Tree) : Except String (List core.Change) :=
  .ok
    (new.Files.filterMap (fun f =>
        match old.Files.find? (fun g => g.Name = f.Name) with
        | none => some ⟨⟨""⟩, ⟨f.Name⟩, .ok .Insert⟩
        | some g =>
          if g.Content = f.Content then none
          else some ⟨⟨g.Name⟩, ⟨f.Name⟩, .ok .Modify⟩)
      ++ old.Files.filterMap (fun g =>
        match new.Files.find? (fun f => f.Name = g.Name) with
        | none => some ⟨⟨g.Name⟩, ⟨""⟩, .ok .Delete⟩
        | some _ => none))

/-- A `strings.TrimSpace` for the sample: drops leading and trailing white space. -/
def trimSpace (s : String) : String :=
  String.mk ((s.toList.dropWhile Char.isWhitespace).reverse.dropWhile Char.isWhitespace).reverse

/-- A signature that matches the path `config.yml`. -/
def configSignature : Signature :=
  ⟨fun f => f.Path = "config.yml", "Potential configuration secret", "password"⟩

/-- A second signature matching every path ending in `.yml`. -/
def ymlSignature : Signature :=
  ⟨fun f => ".yml".toList.isSuffixOf f.Path.toList, "YAML file", ""⟩

/-- The sample environment: two signatures, image files skipped, `AddFinding`
incrementing `Stats.Findings` `bumps` times. -/
def env (bumps : Nat) : Env :=
  { Signatures := [configSignature, ymlSignature]
    IsSkippable := fun f => f.Path = "logo.png"
    DiffTree := diffTree
    TrimSpace := trimSpace
    findingBumps := bumps
    Threads := 4
    CommitDepth := 0 }

/-- The file `README.md`. -/
def readme : core.GitFile := ⟨"README.md", .ok "hello"⟩
/-- The file `logo.png`, which the sample skip rule skips. -/
def logo : core.GitFile := ⟨"logo.png", .ok "PNG"⟩
/-- The file `config.yml` as first committed. -/
def config1 : core.GitFile := ⟨"config.yml", .ok "password=hunter2"⟩
/-- The file `config.yml` as modified. -/
def config2 : core.GitFile := ⟨"config.yml", .ok "password=hunter3"⟩

/-- The root commit: adds `README.md`. -/
def commit0 : core.Commit := ⟨"c0", "initial\n", "ann", [], .ok ⟨[readme]⟩⟩
/-- The commit that adds `config.yml` and `logo.png`. -/
def commit1 : core.Commit :=
  ⟨"c1", "add config\n", "ann", ["c0"], .ok ⟨[readme, config1, logo]⟩⟩
/-- The commit at HEAD: modifies `config.yml`. -/
def commit2 : core.Commit :=
  ⟨"c2", "rotate\n", "bob", ["c1"], .ok ⟨[readme, config2, logo]⟩⟩

/-- The clone of `acme/app`: three commits, no object stored under the empty-tree hash. -/
def clone : core.Repository :=
  { Head := .ok "c2"
    CommitObject := fun h =>
      if h = "c2" then .ok commit2 else if h = "c1" then .ok commit1
      else if h = "c0" then .ok commit0 else .error "object not found"
    Log := fun h =>
      if h = "c2" then .ok [commit2, commit1, commit0] else .error "object not found" }

/-- The repository `acme/app` as listed for its owner. -/
def repo : GithubRepository :=
  ⟨"acme", "app", "acme/app", "https://example.org/acme/app.git", "master"⟩

/-- A machine on which the clone of `acme/app` succeeds into `/tmp/gitrob1`. -/
def host : Host := ⟨fun _ => .ok "/tmp/gitrob1", fun _ _ _ _ => .ok clone, fun m => m⟩

/-- The session before the analysis: one target, no finding, counters at zero. -/
def sess0 : Session := ⟨[], ⟨1, 0, 0, 0, 0⟩⟩
/-- The state before the analysis: `sess0` and one existing directory. -/
def world0 : World := ⟨sess0, ["/home"]⟩

end Sample

/-- A machine on which the remote of `acme/app` is empty: the temporary directory
is created, then `git.PlainClone` fails. -/
def Sample.emptyRemoteHost : Host :=
  ⟨fun _ => .ok "/tmp/gitrob1", fun _ _ _ _ => .error "remote repository is empty",
    fun m => m⟩

/-- A clone whose HEAD reference cannot be resolved. -/
def Sample.headlessClone : core.Repository :=
  { Head := .error "reference not found"
    CommitObject := fun _ => .error "object not found"
    Log := fun _ => .error "object not found" }

/-- A machine on which the clone succeeds and yields `headlessClone`. -/
def Sample.headlessHost : Host :=
  ⟨fun _ => .ok "/tmp/gitrob1", fun _ _ _ _ => .ok Sample.headlessClone, fun m => m⟩

/-- The change "modify `config.yml`". -/
def Sample.modifyConfig : core.Change := ⟨⟨"config.yml"⟩, ⟨"config.yml"⟩, .ok .Modify⟩

/-- The placeholder finding of the HEAD pass for `config.yml` of the sample. -/
def Sample.headConfigFinding : Finding :=
  ⟨"config.yml", "Unknown", "Test desc ", "Test comment", "acme", "app", "1",
    "Test commit message", "Test author"⟩

/-- The finding for `modify config.yml` at commit `c2` of the sample. -/
def Sample.modifyFinding : Finding :=
  ⟨"config.yml", "Modify", "Potential configuration secret", "password", "acme", "app", "c2",
    "rotate", "bob"⟩

/-- The finding for `insert config.yml` at commit `c1` of the sample. -/
def Sample.insertFinding : Finding :=
  ⟨"config.yml", "Insert", "Potential configuration secret", "password", "acme", "app", "c1",
    "add config", "ann"⟩

/-- The entries of the file map at HEAD of the sample clone. -/
def Sample.headFiles : core.FileList :=
  ⟨[("README.md", Sample.readme), ("config.yml", Sample.config2), ("logo.png", Sample.logo)]⟩

/-! ## Worker counts -/

/-- C2: for every number of repositories `n` and thread count `t`, the worker count of
`AnalyzeRepositories` is 1 if `n ≤ 1`, else `n - 1` if `n ≤ t`, else `t`; in particular
(5, 10) gives 4, (1, any t) gives 1 and (20, 4) gives 4. -/
theorem analyze_threadNum_policy (n : Nat) (t : Int) :
    AnalyzeRepositories.threadNum n t
        = (if n ≤ 1 then 1 else if (n : Int) ≤ t then ((n - 1 : Nat) : Int) else t)
      ∧ AnalyzeRepositories.threadNum 5 10 = 4
      ∧ AnalyzeRepositories.threadNum 1 t = 1
      ∧ AnalyzeRepositories.threadNum 20 4 = 4 := by
  refine ⟨?_, by decide, by simp [AnalyzeRepositories.threadNum], by decide⟩
  unfold AnalyzeRepositories.threadNum
  split_ifs with h1 h2
  · rfl
  · omega
  · rfl

/-- C10 (evaluation at the failing input): with no targets and 10 configured threads
`GatherRepositories` computes the worker count -1, where `AnalyzeRepositories`
computes 1 for the same numbers. -/
theorem gather_threadNum_zero_targets :
    GatherRepositories.threadNum 0 10 = -1
      ∧ AnalyzeRepositories.threadNum 0 10 = 1
      ∧ GatherRepositories.threadNum 0 10 ≠ AnalyzeRepositories.threadNum 0 10
      ∧ GatherRepositories.threadNum 0 10 < 0 := by
  decide

/-- With at least one target the two phases compute the same worker count. -/
theorem gather_threadNum_eq_analyze (n : Nat) (t : Int) (hn : n ≠ 0) :
    GatherRepositories.threadNum n t = AnalyzeRepositories.threadNum n t := by
  unfold GatherRepositories.threadNum AnalyzeRepositories.threadNum
  have h : (n = 1) ↔ (n ≤ 1) := by omega
  simp only [h]

/-- With at least one target and a non-negative thread count the worker count of
`GatherRepositories` is not negative. -/
theorem gather_threadNum_nonneg (n : Nat) (t : Int) (hn : n ≠ 0) (ht : 0 ≤ t) :
    0 ≤ GatherRepositories.threadNum n t := by
  unfold GatherRepositories.threadNum
  split_ifs <;> omega

/-! ## Change decoding -/

/-- C3: `GetChangePath` returns the pre-image name for a change whose action decodes to
Delete, the post-image name when it decodes to Insert or Modify, and the post-image
name when the action cannot be decoded, which is when `GetChangeAction` returns
"Unknown" for a decode failure. -/
theorem getChangePath_by_action (From To : core.ChangeEntry) :
    core.GetChangePath ⟨From, To, .ok .Delete⟩ = From.Name
      ∧ core.GetChangePath ⟨From, To, .ok .Insert⟩ = To.Name
      ∧ core.GetChangePath ⟨From, To, .ok .Modify⟩ = To.Name
      ∧ (∀ err, core.GetChangePath ⟨From, To, .error err⟩ = To.Name
          ∧ core.GetChangeAction ⟨From, To, .error err⟩ = "Unknown")
      ∧ core.GetChangeAction ⟨From, To, .ok .Delete⟩ = "Delete"
      ∧ core.GetChangeAction ⟨From, To, .ok .Insert⟩ = "Insert"
      ∧ core.GetChangeAction ⟨From, To, .ok .Modify⟩ = "Modify"
      ∧ core.GetChangePath ⟨From, To, .ok .Invalid⟩ = To.Name
      ∧ core.GetChangeAction ⟨From, To, .ok .Invalid⟩ = "Unknown" := by
  refine ⟨rfl, rfl, rfl, fun _ => ⟨rfl, rfl⟩, rfl, rfl, rfl, rfl, rfl⟩

/-! ## Root commits -/

/-- A commit without parents cannot be diffed when no commit object is stored under
the empty-tree hash. -/
theorem getChanges_root_error
    (DiffTree : core.Tree → core.Tree → Except String (List core.Change))
    (commit : core.Commit) (repo : core.Repository) (err : String)
    (hroot : commit.NumParents = 0)
    (hmiss : repo.CommitObject core.EmptyTreeCommitId = .error err) :
    core.GetChanges DiffTree commit repo = .error err := by
  simp [core.GetChanges, core.GetParentCommit, hroot, hmiss]

/-- For a commit with at least one parent, the baseline of the diff is the tree of
the commit stored under the first parent hash. -/
theorem getChanges_parent_baseline
    (DiffTree : core.Tree → core.Tree → Except String (List core.Change))
    (commit parent : core.Commit) (repo : core.Repository) (h : String) (rest : List String)
    (commitTree parentTree : core.Tree)
    (hparents : commit.ParentHashes = h :: rest)
    (hlookup : repo.CommitObject h = .ok parent)
    (htree : commit.Tree = .ok commitTree)
    (hptree : parent.Tree = .ok parentTree) :
    core.GetChanges DiffTree commit repo = DiffTree parentTree commitTree := by
  simp only [core.GetChanges, core.GetParentCommit, core.Commit.NumParents, hparents,
    List.length_cons, Nat.succ_ne_zero, if_false, hlookup, htree, hptree]
  cases DiffTree parentTree commitTree <;> rfl

/-- C4 (evaluation at the failing input): in the sample clone the root commit `c0` has
no parents and a readable tree holding `README.md`, yet `GetChanges` fails with the
error of the commit lookup under the empty-tree hash, and the worker sees no change. -/
theorem getChanges_root_commit_fails :
    Sample.commit0.NumParents = 0
      ∧ (∃ tree, Sample.commit0.Tree = .ok tree
          ∧ tree.Files.map (fun f => f.Name) = ["README.md"])
      ∧ core.GetChanges Sample.diffTree Sample.commit0 Sample.clone = .error "object not found"
      ∧ (AnalyzeRepositories.changesOf (Sample.env 0) Sample.clone Sample.commit0).length
        = 0 := by
  refine ⟨rfl, ⟨_, rfl, rfl⟩, rfl, rfl⟩

/-! ## Failure paths of the worker -/

/-- C7 (evaluation at the failing input): when the clone succeeds and `FetchFiles`
fails, the worker iteration ends in a panic, `Stats.Repositories` is not incremented
and the clone directory is still there. -/
theorem worker_fetchFiles_failure_panics :
    (core.CloneRepository Sample.headlessHost Sample.world0.dirs Sample.repo.CloneURL
          Sample.repo.DefaultBranch (Sample.env 0).CommitDepth
        = (.ok (Sample.headlessClone, "/tmp/gitrob1"), ["/tmp/gitrob1", "/home"]))
      ∧ core.FetchFiles Sample.headlessClone = .error "reference not found"
      ∧ AnalyzeRepositories.worker (Sample.env 0) Sample.headlessHost Sample.world0 Sample.repo
        = .panic ⟨Sample.sess0, ["/tmp/gitrob1", "/home"]⟩
      ∧ (AnalyzeRepositories.worker (Sample.env 0) Sample.headlessHost Sample.world0
          Sample.repo).world.sess.Stats.Repositories
        = Sample.world0.sess.Stats.Repositories := by
  refine ⟨rfl, rfl, by decide, by decide⟩

/-- C8 (evaluation at the failing input): when `git.PlainClone` fails after the
temporary directory was created, the worker goes on to the next item and the
directory still exists. -/
theorem worker_clone_failure_keeps_dir :
    (core.CloneRepository Sample.emptyRemoteHost Sample.world0.dirs Sample.repo.CloneURL
          Sample.repo.DefaultBranch (Sample.env 0).CommitDepth
        = (.error ("/tmp/gitrob1", "remote repository is empty"), ["/tmp/gitrob1", "/home"]))
      ∧ ∃ w, AnalyzeRepositories.worker (Sample.env 0) Sample.emptyRemoteHost Sample.world0
            Sample.repo = .next w
        ∧ "/tmp/gitrob1" ∈ w.dirs
        ∧ "/tmp/gitrob1" ∉ Sample.world0.dirs
        ∧ w.sess.Stats.Repositories = Sample.world0.sess.Stats.Repositories + 1 := by
  refine ⟨rfl, ⟨Sample.sess0.IncrementRepositories, ["/tmp/gitrob1", "/home"]⟩, by decide,
    by decide, by decide, by decide⟩

/-- C5 (evaluation at the failing input): however many times `AddFinding` itself
increments `Stats.Findings`, the worker starts on the sample repository (one match at
HEAD, two matches in the history) with as many findings as `Stats.Findings` says and
ends with 3 findings and `Stats.Findings` equal to `3 * bumps + 2`, which is never 3. -/
theorem worker_findings_counter_diverges (bumps : Nat) :
    Sample.world0.sess.Findings.length = Sample.world0.sess.Stats.Findings
      ∧ (AnalyzeRepositories.worker (Sample.env bumps) Sample.host Sample.world0
        Sample.repo).world.sess.Findings.length = 3
      ∧ (AnalyzeRepositories.worker (Sample.env bumps) Sample.host Sample.world0
        Sample.repo).world.sess.Stats.Findings = 3 * bumps + 2
      ∧ (AnalyzeRepositories.worker (Sample.env bumps) Sample.host Sample.world0
        Sample.repo).world.sess.Findings.length
        ≠ (AnalyzeRepositories.worker (Sample.env bumps) Sample.host Sample.world0
        Sample.repo).world.sess.Stats.Findings := by
  have h1 : (AnalyzeRepositories.worker (Sample.env bumps) Sample.host Sample.world0
        Sample.repo).world.sess.Findings.length = 3 := rfl
  have h2 : (AnalyzeRepositories.worker (Sample.env bumps) Sample.host Sample.world0
        Sample.repo).world.sess.Stats.Findings = 0 + bumps + bumps + 1 + bumps + 1 := rfl
  refine ⟨rfl, h1, by omega, by omega⟩

/-! ## The loops of the worker, characterised -/

namespace AnalyzeRepositories

/-- The signature loop stops at the first matching signature. -/
theorem signatureLoop_eq (env : Env) (repo : GithubRepository) (commit : core.Commit)
    (changeAction path : String) (matchFile : MatchFile) (sigs : List Signature)
    (sess : Session) :
    signatureLoop env repo commit changeAction path matchFile sigs sess
      = match sigs.find? (fun s => s.Match matchFile) with
        | none => sess
        | some s =>
          (sess.AddFinding env.findingBumps
            (newFinding env repo commit changeAction path s)).IncrementFindings := by
  induction sigs with
  | nil => rfl
  | cons a rest ih =>
    by_cases h : a.Match matchFile = true
    · simp [signatureLoop, List.find?, h]
    · simp [signatureLoop, List.find?, h, ih]

/-- The effect of the body of the change loop on the findings and on the counters. -/
theorem changeBody_effect (env : Env) (repo : GithubRepository) (commit : core.Commit)
    (sess : Session) (change : core.Change) :
    (changeBody env repo commit sess change).Findings
        = sess.Findings ++ (changeFinding env repo commit change).toList
      ∧ (changeBody env repo commit sess change).Stats.Files
        = sess.Stats.Files + inspected env [change]
      ∧ (changeBody env repo commit sess change).Stats.Commits = sess.Stats.Commits
      ∧ (changeBody env repo commit sess change).Stats.Repositories
        = sess.Stats.Repositories := by
  unfold changeBody changeFinding inspected firstMatch
  by_cases hs : env.IsSkippable (NewMatchFile (core.GetChangePath change)) = true
  · simp [hs]
  · simp only [hs, signatureLoop_eq]
    cases env.Signatures.find? (fun s => s.Match (NewMatchFile (core.GetChangePath change))) <;>
      simp [Session.AddFinding, Session.IncrementFindings, Session.IncrementFiles,
        List.countP_cons, hs]

/-- The effect of the change loop on the findings and on the counters. -/
theorem changeLoop_effect (env : Env) (repo : GithubRepository) (commit : core.Commit)
    (changes : List core.Change) (sess : Session) :
    (changes.foldl (changeBody env repo commit) sess).Findings
        = sess.Findings ++ changes.filterMap (changeFinding env repo commit)
      ∧ (changes.foldl (changeBody env repo commit) sess).Stats.Files
        = sess.Stats.Files + inspected env changes
      ∧ (changes.foldl (changeBody env repo commit) sess).Stats.Commits = sess.Stats.Commits
      ∧ (changes.foldl (changeBody env repo commit) sess).Stats.Repositories
        = sess.Stats.Repositories := by
  induction changes generalizing sess with
  | nil => simp [inspected]
  | cons change rest ih =>
    obtain ⟨h1, h2, h3, h4⟩ := changeBody_effect env repo commit sess change
    obtain ⟨i1, i2, i3, i4⟩ := ih (changeBody env repo commit sess change)
    simp only [List.foldl_cons]
    refine ⟨?_, ?_, ?_, ?_⟩
    · rw [i1, h1, List.filterMap_cons]
      cases changeFinding env repo commit change <;> simp
    · rw [i2, h2]
      simp only [inspected, List.countP_cons, List.countP_nil]
      omega
    · rw [i3, h3]
    · rw [i4, h4]

/-- The effect of the body of the commit loop. -/
theorem commitBody_effect (env : Env) (repo : GithubRepository) (clone : core.Repository)
    (sess : Session) (commit : core.Commit) :
    (commitBody env repo clone sess commit).Findings
        = sess.Findings ++ commitFindings env repo clone commit
      ∧ (commitBody env repo clone sess commit).Stats.Files
        = sess.Stats.Files + inspected env (changesOf env clone commit)
      ∧ (commitBody env repo clone sess commit).Stats.Commits = sess.Stats.Commits + 1
      ∧ (commitBody env repo clone sess commit).Stats.Repositories = sess.Stats.Repositories := by
  obtain ⟨h1, h2, h3, h4⟩ := changeLoop_effect env repo commit (changesOf env clone commit) sess
  simp only [commitBody, commitFindings, Session.IncrementCommits]
  exact ⟨h1, h2, by rw [h3], h4⟩

/-- The effect of the commit loop. -/
theorem commitLoop_effect (env : Env) (repo : GithubRepository) (clone : core.Repository)
    (history : List core.Commit) (sess : Session) :
    (history.foldl (commitBody env repo clone) sess).Findings
        = sess.Findings ++ historyFindings env repo clone history
      ∧ (history.foldl (commitBody env repo clone) sess).Stats.Files
        = sess.Stats.Files + (history.map (fun c => inspected env (changesOf env clone c))).sum
      ∧ (history.foldl (commitBody env repo clone) sess).Stats.Commits
        = sess.Stats.Commits + history.length
      ∧ (history.foldl (commitBody env repo clone) sess).Stats.Repositories
        = sess.Stats.Repositories := by
  induction history generalizing sess with
  | nil => simp [historyFindings]
  | cons commit rest ih =>
    obtain ⟨h1, h2, h3, h4⟩ := commitBody_effect env repo clone sess commit
    obtain ⟨i1, i2, i3, i4⟩ := ih (commitBody env repo clone sess commit)
    simp only [List.foldl_cons, List.map_cons, List.sum_cons, List.length_cons, historyFindings]
    refine ⟨?_, ?_, ?_, ?_⟩
    · rw [i1, h1, List.append_assoc]
    · rw [i2, h2]; omega
    · rw [i3, h3]; omega
    · rw [i4, h4]

/-- The effect of the pass over the files at HEAD. -/
theorem headPass_effect (env : Env) (repo : GithubRepository) (files : core.FileList)
    (sess : Session) :
    (headPass env repo files sess).Findings = sess.Findings ++ headFindings repo files
      ∧ (headPass env repo files sess).Stats.Files = sess.Stats.Files
      ∧ (headPass env repo files sess).Stats.Commits = sess.Stats.Commits
      ∧ (headPass env repo files sess).Stats.Repositories = sess.Stats.Repositories := by
  obtain ⟨entries⟩ := files
  unfold headPass headFindings
  simp only
  induction entries generalizing sess with
  | nil => simp
  | cons entry rest ih =>
    simp only [List.foldl_cons, List.filterMap_cons]
    by_cases h : mwsRegexCount entry.2.Content > 0
    · obtain ⟨i1, i2, i3, i4⟩ := ih (sess.AddFinding env.findingBumps
        { FilePath := entry.1
          Action := "Unknown"
          Description := "Test desc "
          Comment := "Test comment"
          RepositoryOwner := repo.Owner
          RepositoryName := repo.Name
          CommitHash := toString (mwsRegexCount entry.2.Content)
          CommitMessage := "Test commit message"
          CommitAuthor := "Test author" })
      simp only [h, if_true, headFinding]
      refine ⟨?_, ?_, ?_, ?_⟩
      · rw [i1]; simp [Session.AddFinding]
      · rw [i2]; simp [Session.AddFinding]
      · rw [i3]; simp [Session.AddFinding]
      · rw [i4]; simp [Session.AddFinding]
    · simp only [h, if_false, headFinding]
      exact ih sess

end AnalyzeRepositories

/-- When clone, file listing at HEAD and history succeed, the worker runs the HEAD
pass, then the commit loop, removes the clone directory and counts the repository. -/
theorem worker_success (env : Env) (host : Host) (w : World) (repo : GithubRepository)
    (clone : core.Repository) (path : String) (dirs : List String)
    (files : core.FileList) (history : List core.Commit)
    (hclone : core.CloneRepository host w.dirs repo.CloneURL repo.DefaultBranch env.CommitDepth
      = (.ok (clone, path), dirs))
    (hfiles : core.FetchFiles clone = .ok files)
    (hhist : core.GetRepositoryHistory clone = .ok history) :
    AnalyzeRepositories.worker env host w repo
      = .next ⟨(history.foldl (AnalyzeRepositories.commitBody env repo clone)
          (AnalyzeRepositories.headPass env repo (host.visit files)
            w.sess)).IncrementRepositories,
          RemoveAll path dirs⟩ := by
  simp [AnalyzeRepositories.worker, hclone, hfiles, hhist]

/-! ## The signature loop -/

/-- C1: for a change whose path is not skippable, the body of the change loop records
at most one finding; when no signature matches it records none; otherwise it records
exactly one, carrying the description and comment of the first signature in declared
order that matches (every signature before it does not match). -/
theorem changeBody_records_first_match (env : Env) (repo : GithubRepository)
    (commit : core.Commit) (sess : Session) (change : core.Change)
    (hskip : env.IsSkippable (NewMatchFile (core.GetChangePath change)) = false) :
    (AnalyzeRepositories.changeBody env repo commit sess change).Findings.length
        ≤ sess.Findings.length + 1
      ∧ (((∀ s ∈ env.Signatures, s.Match (NewMatchFile (core.GetChangePath change)) = false)
          ∧ (AnalyzeRepositories.changeBody env repo commit sess change).Findings
            = sess.Findings)
        ∨ ∃ pre s post f, env.Signatures = pre ++ s :: post
          ∧ (∀ x ∈ pre, x.Match (NewMatchFile (core.GetChangePath change)) = false)
          ∧ s.Match (NewMatchFile (core.GetChangePath change)) = true
          ∧ (AnalyzeRepositories.changeBody env repo commit sess change).Findings
            = sess.Findings ++ [f]
          ∧ f.Description = s.Description ∧ f.Comment = s.Comment
          ∧ f.FilePath = core.GetChangePath change
          ∧ f.Action = core.GetChangeAction change) := by
  obtain ⟨h1, -⟩ := AnalyzeRepositories.changeBody_effect env repo commit sess change
  rw [h1]
  unfold AnalyzeRepositories.changeFinding AnalyzeRepositories.firstMatch
  simp only [hskip, Bool.false_eq_true, if_false]
  cases hf : env.Signatures.find? (fun s => s.Match (NewMatchFile (core.GetChangePath change))) with
  | none =>
    refine ⟨by simp, Or.inl ⟨?_, by simp⟩⟩
    intro s hs
    have := List.find?_eq_none.mp hf s hs
    simpa using this
  | some s =>
    obtain ⟨hm, pre, post, hsplit, hpre⟩ := List.find?_eq_some.mp hf
    refine ⟨by simp, Or.inr ⟨pre, s, post, _, hsplit, ?_, hm, rfl, rfl, rfl, rfl, rfl⟩⟩
    intro x hx
    simpa using hpre x hx

/-- Witness for C1: `modify config.yml` at commit `c2` of the sample, where both sample
signatures match and the first one is recorded. -/
theorem changeBody_records_first_match_witness :
    (Sample.env 0).IsSkippable (NewMatchFile (core.GetChangePath Sample.modifyConfig)) = false
      ∧ ((AnalyzeRepositories.changeBody (Sample.env 0) Sample.repo Sample.commit2 Sample.sess0
            Sample.modifyConfig).Findings.length ≤ Sample.sess0.Findings.length + 1
        ∧ (((∀ s ∈ (Sample.env 0).Signatures,
              s.Match (NewMatchFile (core.GetChangePath Sample.modifyConfig)) = false)
            ∧ (AnalyzeRepositories.changeBody (Sample.env 0) Sample.repo Sample.commit2
                Sample.sess0 Sample.modifyConfig).Findings = Sample.sess0.Findings)
          ∨ ∃ pre s post f, (Sample.env 0).Signatures = pre ++ s :: post
            ∧ (∀ x ∈ pre,
                x.Match (NewMatchFile (core.GetChangePath Sample.modifyConfig)) = false)
            ∧ s.Match (NewMatchFile (core.GetChangePath Sample.modifyConfig)) = true
            ∧ (AnalyzeRepositories.changeBody (Sample.env 0) Sample.repo Sample.commit2
                Sample.sess0 Sample.modifyConfig).Findings = Sample.sess0.Findings ++ [f]
            ∧ f.Description = s.Description ∧ f.Comment = s.Comment
            ∧ f.FilePath = core.GetChangePath Sample.modifyConfig
            ∧ f.Action = core.GetChangeAction Sample.modifyConfig)) :=
  ⟨by decide,
    changeBody_records_first_match (Sample.env 0) Sample.repo Sample.commit2 Sample.sess0
      Sample.modifyConfig (by decide)⟩

/-! ## `Stats.Files` -/

/-- C9 (counterexample): for the sample repository clone and history succeed, the
(commit, change) pairs with a matching signature give 2 findings (modify at `c2`,
insert at `c1`), but the worker appends 3: the placeholder finding of the pass over
the files at HEAD comes first. -/
theorem worker_findings_include_head_pass :
    core.GetRepositoryHistory Sample.clone
        = .ok [Sample.commit2, Sample.commit1, Sample.commit0]
      ∧ AnalyzeRepositories.historyFindings (Sample.env 0) Sample.repo Sample.clone
          [Sample.commit2, Sample.commit1, Sample.commit0]
        = [Sample.modifyFinding, Sample.insertFinding]
      ∧ (AnalyzeRepositories.worker (Sample.env 0) Sample.host Sample.world0
          Sample.repo).world.sess.Findings
        = [Sample.headConfigFinding, Sample.modifyFinding, Sample.insertFinding]
      ∧ (AnalyzeRepositories.worker (Sample.env 0) Sample.host Sample.world0
          Sample.repo).world.sess.Findings
        ≠ Sample.world0.sess.Findings
          ++ AnalyzeRepositories.historyFindings (Sample.env 0) Sample.repo Sample.clone
            [Sample.commit2, Sample.commit1, Sample.commit0] := by
  refine ⟨rfl, by decide, by decide, by decide⟩

/-- C9 (amended): when clone, file listing at HEAD and history succeed, the worker goes
on to the next item having appended, in this order, first one placeholder finding
(action "Unknown") per file at HEAD whose content matches `password`, in the order the
`range` visits the file map, then one finding per (commit, change) pair whose path is not
skippable and for which some signature matches, in commit-list order and within a
commit in change-list order, each carrying that commit's hash and that change's action
and path; `Stats.Commits` grows by the number of commits. -/
theorem worker_findings_in_order (env : Env) (host : Host) (w : World)
    (repo : GithubRepository) (clone : core.Repository) (path : String) (dirs : List String)
    (files : core.FileList) (history : List core.Commit)
    (hclone : core.CloneRepository host w.dirs repo.CloneURL repo.DefaultBranch env.CommitDepth
      = (.ok (clone, path), dirs))
    (hfiles : core.FetchFiles clone = .ok files)
    (hhist : core.GetRepositoryHistory clone = .ok history) :
    ∃ w1, AnalyzeRepositories.worker env host w repo = .next w1
      ∧ w1.sess.Findings = w.sess.Findings
          ++ AnalyzeRepositories.headFindings repo (host.visit files)
          ++ AnalyzeRepositories.historyFindings env repo clone history
      ∧ w1.sess.Stats.Commits = w.sess.Stats.Commits + history.length := by
  refine ⟨_,
    worker_success env host w repo clone path dirs files history hclone hfiles hhist, ?_⟩
  obtain ⟨h1, -, h3, -⟩ := AnalyzeRepositories.commitLoop_effect env repo clone history
    (AnalyzeRepositories.headPass env repo (host.visit files) w.sess)
  obtain ⟨k1, -, k3, -⟩ :=
    AnalyzeRepositories.headPass_effect env repo (host.visit files) w.sess
  simp only [Session.IncrementRepositories]
  exact ⟨by rw [h1, k1], by rw [h3, k3]⟩

/-- Witness for C9 (amended): the worker on the sample repository. -/
theorem worker_findings_in_order_witness :
    (core.CloneRepository Sample.host Sample.world0.dirs Sample.repo.CloneURL
          Sample.repo.DefaultBranch (Sample.env 0).CommitDepth
        = (.ok (Sample.clone, "/tmp/gitrob1"), ["/tmp/gitrob1", "/home"]))
      ∧ core.FetchFiles Sample.clone = .ok Sample.headFiles
      ∧ core.GetRepositoryHistory Sample.clone
        = .ok [Sample.commit2, Sample.commit1, Sample.commit0]
      ∧ ∃ w1, AnalyzeRepositories.worker (Sample.env 0) Sample.host Sample.world0 Sample.repo
            = .next w1
        ∧ w1.sess.Findings = Sample.world0.sess.Findings
            ++ AnalyzeRepositories.headFindings Sample.repo (Sample.host.visit Sample.headFiles)
            ++ AnalyzeRepositories.historyFindings (Sample.env 0) Sample.repo Sample.clone
              [Sample.commit2, Sample.commit1, Sample.commit0]
        ∧ w1.sess.Stats.Commits = Sample.world0.sess.Stats.Commits
            + [Sample.commit2, Sample.commit1, Sample.commit0].length :=
  ⟨rfl, rfl, rfl,
    worker_findings_in_order (Sample.env 0) Sample.host Sample.world0 Sample.repo Sample.clone
      "/tmp/gitrob1" ["/tmp/gitrob1", "/home"] Sample.headFiles
      [Sample.commit2, Sample.commit1, Sample.commit0] rfl rfl rfl⟩

/-! ## Further facts about the failure paths -/

/-- When `CloneRepository` fails, the worker counts the repository and goes on; the
directories are as `CloneRepository` left them. -/
theorem worker_clone_failure (env : Env) (host : Host) (w : World) (repo : GithubRepository)
    (e : String × String) (dirs : List String)
    (hclone : core.CloneRepository host w.dirs repo.CloneURL repo.DefaultBranch env.CommitDepth
      = (.error e, dirs)) :
    AnalyzeRepositories.worker env host w repo
      = .next ⟨w.sess.IncrementRepositories, dirs⟩ := by
  simp [AnalyzeRepositories.worker, hclone]

/-- When the clone succeeds and `FetchFiles` fails, the worker panics. -/
theorem worker_fetchFiles_failure (env : Env) (host : Host) (w : World)
    (repo : GithubRepository) (clone : core.Repository) (path err : String)
    (dirs : List String)
    (hclone : core.CloneRepository host w.dirs repo.CloneURL repo.DefaultBranch env.CommitDepth
      = (.ok (clone, path), dirs))
    (hfiles : core.FetchFiles clone = .error err) :
    AnalyzeRepositories.worker env host w repo = .panic ⟨w.sess, dirs⟩ := by
  simp [AnalyzeRepositories.worker, hclone, hfiles]

/-- When the history cannot be read, the worker removes the clone directory, counts
the repository and goes on. -/
theorem worker_history_failure (env : Env) (host : Host) (w : World)
    (repo : GithubRepository) (clone : core.Repository) (path err : String)
    (dirs : List String) (files : core.FileList)
    (hclone : core.CloneRepository host w.dirs repo.CloneURL repo.DefaultBranch env.CommitDepth
      = (.ok (clone, path), dirs))
    (hfiles : core.FetchFiles clone = .ok files)
    (hhist : core.GetRepositoryHistory clone = .error err) :
    AnalyzeRepositories.worker env host w repo
      = .next ⟨(AnalyzeRepositories.headPass env repo (host.visit files)
          w.sess).IncrementRepositories, RemoveAll path dirs⟩ := by
  simp [AnalyzeRepositories.worker, hclone, hfiles, hhist]

/-- After `os.RemoveAll(path)` the directory `path` does not exist. -/
theorem not_mem_removeAll (path : String) (dirs : List String) :
    path ∉ RemoveAll path dirs := by
  simp [RemoveAll]

/-- After a successful clone, whenever the worker goes on to the next item the clone
directory does not exist any more. -/
theorem worker_removes_clone_dir (env : Env) (host : Host) (w w1 : World)
    (repo : GithubRepository) (clone : core.Repository) (path : String) (dirs : List String)
    (hclone : core.CloneRepository host w.dirs repo.CloneURL repo.DefaultBranch env.CommitDepth
      = (.ok (clone, path), dirs))
    (hnext : AnalyzeRepositories.worker env host w repo = .next w1) :
    path ∉ w1.dirs := by
  simp only [AnalyzeRepositories.worker, hclone] at hnext
  cases hf : core.FetchFiles clone with
  | error err => simp [hf] at hnext
  | ok files =>
    cases hh : core.GetRepositoryHistory clone with
    | error err =>
      simp only [hf, hh, Outcome.next.injEq] at hnext
      rw [← hnext]
      exact not_mem_removeAll path dirs
    | ok history =>
      simp only [hf, hh, Outcome.next.injEq] at hnext
      rw [← hnext]
      exact not_mem_removeAll path dirs

/-- A commit whose diff fails contributes no change and is still counted. -/
theorem commitBody_diff_failure (env : Env) (repo : GithubRepository)
    (clone : core.Repository) (sess : Session) (commit : core.Commit) (err : String)
    (hdiff : core.GetChanges env.DiffTree commit clone = .error err) :
    AnalyzeRepositories.commitBody env repo clone sess commit = sess.IncrementCommits := by
  simp [AnalyzeRepositories.commitBody, AnalyzeRepositories.changesOf, hdiff]

/-- The counter `Stats.Findings` after the signature pass over one change: each
recorded finding adds the increments of `AddFinding` plus one. -/
theorem changeBody_counter (env : Env) (repo : GithubRepository) (commit : core.Commit)
    (sess : Session) (change : core.Change) :
    (AnalyzeRepositories.changeBody env repo commit sess change).Stats.Findings
      = sess.Stats.Findings
        + (env.findingBumps + 1)
          * (AnalyzeRepositories.changeFinding env repo commit change).toList.length := by
  unfold AnalyzeRepositories.changeBody AnalyzeRepositories.changeFinding
    AnalyzeRepositories.firstMatch
  by_cases hs : env.IsSkippable (NewMatchFile (core.GetChangePath change)) = true
  · simp [hs]
  · simp only [hs, AnalyzeRepositories.signatureLoop_eq]
    cases env.Signatures.find? (fun s => s.Match (NewMatchFile (core.GetChangePath change))) <;>
      simp [Session.AddFinding, Session.IncrementFindings, Session.IncrementFiles]
    omega

/-- The counter `Stats.Findings` after the pass over the files at HEAD: each recorded
finding adds only the increments of `AddFinding`. -/
theorem headPass_counter (env : Env) (repo : GithubRepository) (files : core.FileList)
    (sess : Session) :
    (AnalyzeRepositories.headPass env repo files sess).Stats.Findings
      = sess.Stats.Findings
        + env.findingBumps * (AnalyzeRepositories.headFindings repo files).length := by
  obtain ⟨entries⟩ := files
  unfold AnalyzeRepositories.headPass AnalyzeRepositories.headFindings
  simp only
  induction entries generalizing sess with
  | nil => simp
  | cons entry rest ih =>
    simp only [List.foldl_cons, List.filterMap_cons]
    by_cases h : mwsRegexCount entry.2.Content > 0
    · simp only [h, if_true, AnalyzeRepositories.headFinding]
      rw [ih]
      simp only [Session.AddFinding, List.length_cons]
      rw [Nat.mul_succ]
      omega
    · simp only [h, if_false, AnalyzeRepositories.headFinding]
      exact ih sess

/-- The number of inspected changes of a list is at most its length. -/
theorem inspected_le_length (env : Env) (changes : List core.Change) :
    AnalyzeRepositories.inspected env changes ≤ changes.length :=
  List.countP_le_length _

/-- A change list holding a change with a skippable path has fewer inspected changes
than entries. -/
theorem inspected_lt_length (env : Env) (changes : List core.Change)
    (hskip : ∃ change ∈ changes,
      env.IsSkippable (NewMatchFile (core.GetChangePath change)) = true) :
    AnalyzeRepositories.inspected env changes < changes.length := by
  rcases Nat.lt_or_ge (AnalyzeRepositories.inspected env changes) changes.length with h1 | h1
  · exact h1
  · have h2 : AnalyzeRepositories.inspected env changes = changes.length :=
      Nat.le_antisymm (inspected_le_length env changes) h1
    unfold AnalyzeRepositories.inspected at h2
    rw [List.countP_eq_length] at h2
    obtain ⟨change, hmem, hs⟩ := hskip
    have h3 := h2 change hmem
    simp [hs] at h3

/-- Over a history in which some commit's change list holds a change with a skippable
path, the inspected changes number fewer than the entries of the change lists. -/
theorem inspected_sum_lt (env : Env) (clone : core.Repository) (history : List core.Commit)
    (hskip : ∃ commit ∈ history, ∃ change ∈ AnalyzeRepositories.changesOf env clone commit,
      env.IsSkippable (NewMatchFile (core.GetChangePath change)) = true) :
    (history.map (fun commit =>
        AnalyzeRepositories.inspected env (AnalyzeRepositories.changesOf env clone commit))).sum
      < (history.map (fun commit =>
        (AnalyzeRepositories.changesOf env clone commit).length)).sum := by
  induction history with
  | nil =>
    obtain ⟨commit, hmem, -⟩ := hskip
    simp at hmem
  | cons c rest ih =>
    simp only [List.map_cons, List.sum_cons]
    have hle : (rest.map (fun commit =>
        AnalyzeRepositories.inspected env
          (AnalyzeRepositories.changesOf env clone commit))).sum
        ≤ (rest.map (fun commit =>
          (AnalyzeRepositories.changesOf env clone commit).length)).sum := by
      clear ih hskip
      induction rest with
      | nil => simp
      | cons d more ih2 =>
        simp only [List.map_cons, List.sum_cons]
        have := inspected_le_length env (AnalyzeRepositories.changesOf env clone d)
        omega
    obtain ⟨commit, hmem, change, hchange, hs⟩ := hskip
    rcases List.mem_cons.mp hmem with hc | hr
    · subst hc
      have := inspected_lt_length env (AnalyzeRepositories.changesOf env clone commit)
        ⟨change, hchange, hs⟩
      omega
    · have h1 := ih ⟨commit, hr, change, hchange, hs⟩
      have h2 := inspected_le_length env (AnalyzeRepositories.changesOf env clone c)
      omega

/-- Whenever clone, file listing at HEAD and history succeed and some commit's change
list holds a change with a skippable path, `Stats.Files` grows by strictly less than
the sum of the lengths of the change lists, whether or not a diff fails. -/
theorem worker_files_lt_of_skippable (env : Env) (host : Host) (w : World)
    (repo : GithubRepository) (clone : core.Repository) (path : String) (dirs : List String)
    (files : core.FileList) (history : List core.Commit)
    (hclone : core.CloneRepository host w.dirs repo.CloneURL repo.DefaultBranch env.CommitDepth
      = (.ok (clone, path), dirs))
    (hfiles : core.FetchFiles clone = .ok files)
    (hhist : core.GetRepositoryHistory clone = .ok history)
    (hskip : ∃ commit ∈ history, ∃ change ∈ AnalyzeRepositories.changesOf env clone commit,
      env.IsSkippable (NewMatchFile (core.GetChangePath change)) = true) :
    ∃ w1, AnalyzeRepositories.worker env host w repo = .next w1
      ∧ w1.sess.Stats.Files < w.sess.Stats.Files
          + (history.map (fun commit =>
              (AnalyzeRepositories.changesOf env clone commit).length)).sum := by
  refine ⟨_,
    worker_success env host w repo clone path dirs files history hclone hfiles hhist, ?_⟩
  obtain ⟨-, h2, -⟩ := AnalyzeRepositories.commitLoop_effect env repo clone history
    (AnalyzeRepositories.headPass env repo (host.visit files) w.sess)
  obtain ⟨-, k2, -⟩ := AnalyzeRepositories.headPass_effect env repo (host.visit files) w.sess
  have h3 := inspected_sum_lt env clone history hskip
  simp only [Session.IncrementRepositories]
  rw [h2, k2]
  omega

end Gitrob
